import Mathlib

/-!
Verification of the `code-editing-agent` repository (src/python/main.py).

The development is a shallow embedding of the program:

* The filesystem the three tools operate on is modelled as an `FS` value:
  an association list of files (path, content) plus a list of directories.
  Paths are canonical relative names (nonempty, `/`-separated components,
  no leading/trailing/double separator); path aliases such as trailing
  slashes, `.` or `..` components and absolute paths are outside the model.
* Python's `str.replace` is modelled by `replaceL` (leftmost, non-overlapping,
  global literal replacement), `os.path.dirname` by `dirname` (POSIX behaviour
  on canonical relative paths), `os.makedirs` by `makedirs`, and `open`
  for reading/writing by `FS.readFile`/`FS.writeFile`, including their
  OS-level failures expressible in this state model (missing file, component
  that is a regular file, directory target).  Environmental failures
  (permissions, I/O errors) are not modelled.  The text of a raised `OSError`
  is rendered in CPython's `str(e)` format.
* `json.loads` is modelled on the fragment of JSON the tools consume:
  flat objects with (escape-free) string keys and values, plus bare integer
  literals (whose dispatch-level `TypeError`/`AttributeError` behaviour the
  dispatch claims exercise); every other argument string is treated as
  malformed.  Python keeps the last of duplicate keys; duplicate keys do not
  arise in any statement below.
* The conversation loop's processing of one model reply (main.py lines
  52-82) is `Agent.processReply`, a pure function of the current filesystem,
  transcript, and the reply dictionary; an uncaught exception is the
  `TurnOutcome.raised` result (the `try` in `Agent.run` catches only
  `KeyboardInterrupt`).  The reply dictionary `InfResult` distinguishes an
  absent key (outer `none`) from a key bound to JSON `null` (inner `none`),
  matching `dict.get` semantics and pydantic's `model_dump()`.
-/

/-! ## Lists of characters: prefix, occurrence, global replacement -/

/-- Core's `a.isPrefixOf b` holds exactly when `b = a ++ t` for some `t`. -/
theorem isPrefixOf_iff_append (a : List Char) :
    ∀ b : List Char, a.isPrefixOf b = true ↔ ∃ t, b = a ++ t := by
  induction a with
  | nil => intro b; simp [List.isPrefixOf]
  | cons c cs ih =>
    intro b
    cases b with
    | nil => simp [List.isPrefixOf]
    | cons d ds =>
      simp only [List.isPrefixOf, Bool.and_eq_true, beq_iff_eq, ih ds]
      constructor
      · rintro ⟨rfl, t, rfl⟩; exact ⟨t, rfl⟩
      · rintro ⟨t, ht⟩
        injection ht with h1 h2
        exact ⟨h1.symm, t, h2⟩

/-- Occurrence test: does `pat` occur as a contiguous substring of `s`?
(`occursB [] s` is `true`, matching Python's `in` on the empty string.) -/
def occursB (pat : List Char) : List Char → Bool
  | [] => pat.isEmpty
  | c :: rest => pat.isPrefixOf (c :: rest) || occursB pat rest

theorem occursB_cons (pat : List Char) (c : Char) (rest : List Char) :
    occursB pat (c :: rest) = (pat.isPrefixOf (c :: rest) || occursB pat rest) :=
  rfl

/-- Fuel-indexed scan for `replaceL`; the fuel only serves structural
recursion and is irrelevant once it covers the list's length. -/
def replaceLAux (old new : List Char) : Nat → List Char → List Char
  | _, [] => []
  | 0, s => s
  | fuel + 1, c :: rest =>
    if old ≠ [] ∧ old.isPrefixOf (c :: rest) = true then
      new ++ replaceLAux old new fuel ((c :: rest).drop old.length)
    else
      c :: replaceLAux old new fuel rest

/-- Leftmost, non-overlapping, global literal replacement of `old` by `new`
inside `s`: the semantics of Python's `str.replace` for nonempty `old`
(the program only calls it with nonempty `old`). -/
def replaceL (old new : List Char) (s : List Char) : List Char :=
  replaceLAux old new s.length s

theorem replaceLAux_fuel (old new : List Char) :
    ∀ (n f : Nat) (s : List Char), f ≤ n → s.length ≤ f →
      replaceLAux old new f s = replaceLAux old new s.length s := by
  intro n
  induction n with
  | zero =>
    intro f s hf hs
    have hf0 : f = 0 := Nat.le_zero.mp hf
    subst hf0
    have : s = [] := List.eq_nil_of_length_eq_zero (Nat.le_zero.mp hs)
    subst this
    rfl
  | succ n ih =>
    intro f s hf hs
    cases s with
    | nil => cases f <;> rfl
    | cons c rest =>
      cases f with
      | zero => simp at hs
      | succ f =>
        show replaceLAux old new (f + 1) (c :: rest)
          = replaceLAux old new (rest.length + 1) (c :: rest)
        rw [replaceLAux, replaceLAux]
        by_cases h : old ≠ [] ∧ old.isPrefixOf (c :: rest) = true
        · rw [if_pos h, if_pos h]
          have hpos : 0 < old.length := List.length_pos.mpr h.1
          have hdlen : ((c :: rest).drop old.length).length ≤ rest.length := by
            simp only [List.length_drop, List.length_cons]
            omega
          have hrf : rest.length ≤ f := by
            simp only [List.length_cons] at hs
            omega
          rw [ih f _ (Nat.lt_succ_iff.mp hf) (le_trans hdlen hrf),
            ih rest.length _ (le_trans hrf (Nat.lt_succ_iff.mp hf)) hdlen]
        · rw [if_neg h, if_neg h]
          have hrf : rest.length ≤ f := by
            simp only [List.length_cons] at hs
            omega
          rw [ih f rest (Nat.lt_succ_iff.mp hf) hrf]

theorem replaceL_nil (old new : List Char) : replaceL old new [] = [] := rfl

theorem replaceL_cons (old new : List Char) (c : Char) (rest : List Char) :
    replaceL old new (c :: rest) =
      if old ≠ [] ∧ old.isPrefixOf (c :: rest) = true then
        new ++ replaceL old new ((c :: rest).drop old.length)
      else
        c :: replaceL old new rest := by
  show replaceLAux old new (rest.length + 1) (c :: rest) = _
  rw [replaceLAux]
  by_cases h : old ≠ [] ∧ old.isPrefixOf (c :: rest) = true
  · rw [if_pos h, if_pos h]
    have hpos : 0 < old.length := List.length_pos.mpr h.1
    have hdlen : ((c :: rest).drop old.length).length ≤ rest.length := by
      simp only [List.length_drop, List.length_cons]
      omega
    rw [replaceL, replaceLAux_fuel old new rest.length rest.length _ (le_refl _) hdlen]
  · rw [if_neg h, if_neg h]
    rfl

/-- If `old` does not occur in `s`, replacement leaves `s` unchanged. -/
theorem replaceL_eq_of_not_occurs (old new : List Char) :
    ∀ s : List Char, occursB old s = false → replaceL old new s = s := by
  intro s
  induction s with
  | nil => intro _; exact replaceL_nil old new
  | cons c rest ih =>
    intro h
    rw [occursB_cons, Bool.or_eq_false_iff] at h
    rw [replaceL_cons]
    rw [if_neg (by simp [h.1])]
    rw [ih h.2]

/-- Replacement shifts length by a multiple of the two pattern lengths. -/
theorem replaceL_length (old new : List Char) (hold : old ≠ []) :
    ∀ n s, List.length s ≤ n →
      ∃ k, (replaceL old new s).length + k * old.length
            = s.length + k * new.length := by
  intro n
  induction n with
  | zero =>
    intro s hs
    have : s = [] := List.eq_nil_of_length_eq_zero (Nat.le_zero.mp hs)
    subst this
    exact ⟨0, by simp [replaceL_nil]⟩
  | succ n ih =>
    intro s hs
    cases s with
    | nil => exact ⟨0, by simp [replaceL_nil]⟩
    | cons c rest =>
      rw [replaceL_cons]
      by_cases h : old.isPrefixOf (c :: rest) = true
      · rw [if_pos ⟨hold, h⟩]
        obtain ⟨t, ht⟩ := (isPrefixOf_iff_append old (c :: rest)).mp h
        have hdrop : (c :: rest).drop old.length = t := by
          rw [ht, List.drop_left]
        have hlen : t.length ≤ n := by
          have h1 : (c :: rest).length = old.length + t.length := by
            rw [ht, List.length_append]
          have h2 : 0 < old.length := List.length_pos.mpr hold
          simp only [List.length_cons] at h1 hs
          omega
        obtain ⟨k, hk⟩ := ih t hlen
        refine ⟨k + 1, ?_⟩
        rw [hdrop]
        have hlens : rest.length + 1 = old.length + t.length := by
          have := congrArg List.length ht
          simpa [List.length_append] using this
        simp only [List.length_append, List.length_cons, Nat.succ_mul]
        generalize k * old.length = A at hk ⊢
        generalize k * new.length = B at hk ⊢
        omega
      · rw [if_neg (by simp [h])]
        obtain ⟨k, hk⟩ := ih rest (by simpa using Nat.lt_succ_iff.mp hs)
        exact ⟨k, by simp only [List.length_cons]; omega⟩

/-- If `old` does occur in `s` (and `old ≠ new`, `old ≠ []`), replacement
changes `s`. -/
theorem replaceL_ne_of_occurs (old new : List Char) (hold : old ≠ [])
    (hne : old ≠ new) :
    ∀ n s, List.length s ≤ n → occursB old s = true →
      replaceL old new s ≠ s := by
  intro n
  induction n with
  | zero =>
    intro s hs hocc
    have : s = [] := List.eq_nil_of_length_eq_zero (Nat.le_zero.mp hs)
    subst this
    simp [occursB, List.isEmpty_iff, hold] at hocc
  | succ n ih =>
    intro s hs hocc
    cases s with
    | nil => simp [occursB, List.isEmpty_iff, hold] at hocc
    | cons c rest =>
      rw [replaceL_cons]
      by_cases h : old.isPrefixOf (c :: rest) = true
      · rw [if_pos ⟨hold, h⟩]
        obtain ⟨t, ht⟩ := (isPrefixOf_iff_append old (c :: rest)).mp h
        have hdrop : (c :: rest).drop old.length = t := by
          rw [ht, List.drop_left]
        rw [hdrop, ht]
        intro heq
        have hlen : new.length + (replaceL old new t).length
            = old.length + t.length := by
          have := congrArg List.length heq
          simpa [List.length_append] using this
        by_cases hl : new.length = old.length
        · have := List.append_inj heq (by omega)
          exact hne this.1.symm
        · have hpos : 0 < old.length := List.length_pos.mpr hold
          obtain ⟨k, hk⟩ := replaceL_length old new hold t.length t (le_refl _)
          have hmul : (k + 1) * old.length = (k + 1) * new.length := by
            simp only [Nat.succ_mul]
            generalize k * old.length = A at hk ⊢
            generalize k * new.length = B at hk ⊢
            omega
          have : old.length = new.length :=
            Nat.eq_of_mul_eq_mul_left (Nat.succ_pos k) hmul
          exact hl this.symm
      · rw [if_neg (by simp [h])]
        rw [occursB_cons, Bool.or_eq_true] at hocc
        have hocc' : occursB old rest = true := by
          cases hocc with
          | inl hh => exact absurd hh h
          | inr hh => exact hh
        have hne' := ih rest (by simpa using Nat.lt_succ_iff.mp hs) hocc'
        intro heq
        injection heq with _ h2
        exact hne' h2

/-! ## Paths: dirname, ancestors, chains of parent directories -/

/-- Everything before the last separator: `os.path.dirname` on canonical
relative paths (`dirnameL "a/b/c" = "a/b"`, `dirnameL "f" = ""`). -/
def dirnameL : List Char → List Char
  | [] => []
  | c :: rest => if '/' ∈ rest then c :: dirnameL rest else []

/-- The proper ancestors of a canonical path: every strict leading segment
that ends just before a separator (`ancestorsL "a/b/c" = ["a", "a/b"]`). -/
def ancestorsL : List Char → List (List Char)
  | [] => []
  | c :: rest =>
      (if c = '/' then [[]] else []) ++ (ancestorsL rest).map (fun a => c :: a)

theorem dirnameL_length_lt : ∀ l : List Char, l ≠ [] → (dirnameL l).length < l.length := by
  intro l
  induction l with
  | nil => intro h; exact absurd rfl h
  | cons c rest ih =>
    intro _
    rw [dirnameL]
    by_cases h : '/' ∈ rest
    · have hne : rest ≠ [] := by rintro rfl; simp at h
      simp only [if_pos h, List.length_cons]
      exact Nat.succ_lt_succ (ih hne)
    · simp [if_neg h]

theorem dirnameL_length_le (l : List Char) : (dirnameL l).length ≤ l.length := by
  cases l with
  | nil => simp [dirnameL]
  | cons c rest => exact Nat.le_of_lt (dirnameL_length_lt _ (by simp))

theorem dirnameL_eq_nil_of_not_mem : ∀ l : List Char, '/' ∉ l → dirnameL l = [] := by
  intro l
  cases l with
  | nil => intro _; rfl
  | cons c rest =>
    intro h
    rw [dirnameL, if_neg (fun hh => h (List.mem_cons_of_mem _ hh))]

theorem dirnameL_mem_ancestorsL : ∀ l : List Char, '/' ∈ l → dirnameL l ∈ ancestorsL l := by
  intro l
  induction l with
  | nil => intro h; simp at h
  | cons c rest ih =>
    intro h
    rw [dirnameL, ancestorsL]
    by_cases hm : '/' ∈ rest
    · rw [if_pos hm]
      exact List.mem_append_right _ (List.mem_map_of_mem _ (ih hm))
    · rw [if_neg hm]
      have hc : c = '/' := by
        cases List.mem_cons.mp h with
        | inl hh => exact hh.symm
        | inr hh => exact absurd hh hm
      simp [hc]

/-- If `q = p ++ "/" ++ t` then `p` is a proper ancestor of `q`. -/
theorem mem_ancestorsL_of_append :
    ∀ p t : List Char, p ∈ ancestorsL (p ++ '/' :: t) := by
  intro p
  induction p with
  | nil => intro t; simp [ancestorsL]
  | cons c cs ih =>
    intro t
    rw [List.cons_append, ancestorsL]
    exact List.mem_append_right _ (List.mem_map_of_mem _ (ih t))

/-- Model of `os.path.dirname`, on canonical relative paths. -/
def dirname (p : String) : String := ⟨dirnameL p.data⟩

theorem dirname_length_lt (p : String) (h : p ≠ "") : (dirname p).length < p.length := by
  have hd : p.data ≠ [] := by
    intro hh
    exact h (by cases p; simp_all)
  exact dirnameL_length_lt p.data hd

theorem dirname_length_le (p : String) : (dirname p).length ≤ p.length :=
  dirnameL_length_le p.data

theorem dirname_empty : dirname "" = "" := rfl

theorem ne_empty_of_dirname_ne_empty (p : String) (h : dirname p ≠ "") : p ≠ "" := by
  intro hh; subst hh; exact h dirname_empty

/-- The proper ancestors of a canonical path, as strings. -/
def ancestors (p : String) : List String := (ancestorsL p.data).map (fun l => ⟨l⟩)

theorem dirname_mem_ancestors (p : String) (h : dirname p ≠ "") :
    dirname p ∈ ancestors p := by
  have hm : '/' ∈ p.data := by
    by_contra hn
    have := dirnameL_eq_nil_of_not_mem p.data hn
    exact h (by simp [dirname, this])
  exact List.mem_map_of_mem _ (dirnameL_mem_ancestorsL p.data hm)

/-- The path together with all its iterated `dirname`s, longest first,
stopping before the empty string (`dirChain "a/b" = ["a/b", "a"]`). -/
def dirChainAux : Nat → String → List String
  | 0, _ => []
  | fuel + 1, p => if p = "" then [] else p :: dirChainAux fuel (dirname p)

def dirChain (p : String) : List String := dirChainAux (p.length + 1) p

theorem dirChainAux_length_le :
    ∀ fuel p q, q ∈ dirChainAux fuel p → q.length ≤ p.length := by
  intro fuel
  induction fuel with
  | zero => intro p q h; simp [dirChainAux] at h
  | succ n ih =>
    intro p q h
    rw [dirChainAux] at h
    by_cases hp : p = ""
    · simp [hp] at h
    · rw [if_neg hp] at h
      cases List.mem_cons.mp h with
      | inl hh => exact le_of_eq (by rw [hh])
      | inr hh => exact le_trans (ih (dirname p) q hh) (dirname_length_le p)

theorem dirChain_length_le (p q : String) (h : q ∈ dirChain p) : q.length ≤ p.length :=
  dirChainAux_length_le _ p q h

theorem self_mem_dirChain (p : String) (h : p ≠ "") : p ∈ dirChain p := by
  rw [dirChain, dirChainAux, if_neg h]
  exact List.mem_cons_self _ _

/-! ## Strings: occurrence and global replacement -/

/-- Python's `content.replace(old, new)` (`str.replace`); the program only
invokes it with nonempty `old`. -/
def strReplace (s old new : String) : String := ⟨replaceL old.data new.data s.data⟩

/-- Python's `old in s` for strings: literal substring occurrence. -/
def strOccurs (old s : String) : Bool := occursB old.data s.data

theorem data_ne_nil_of_ne_empty (p : String) (h : p ≠ "") : p.data ≠ [] := by
  intro hh
  exact h (by cases p; simp_all)

theorem strReplace_eq_of_not_occurs (s old new : String)
    (h : strOccurs old s = false) : strReplace s old new = s := by
  cases s with
  | mk data =>
    exact congrArg String.mk (replaceL_eq_of_not_occurs old.data new.data data h)

theorem strReplace_ne_of_occurs (s old new : String) (hold : old ≠ "")
    (hne : old ≠ new) (h : strOccurs old s = true) : strReplace s old new ≠ s := by
  have holdd : old.data ≠ [] := data_ne_nil_of_ne_empty old hold
  have hned : old.data ≠ new.data := by
    intro hh
    apply hne
    cases old; cases new; simp_all
  intro heq
  apply replaceL_ne_of_occurs old.data new.data holdd hned s.data.length s.data
    (le_refl _) h
  exact congrArg String.data heq

/-! ## The filesystem state -/

/-- The filesystem the tools act on: an association list of regular files
(path, content) and a list of directories, all named by canonical relative
paths. -/
structure FS where
  files : List (String × String)
  dirs : List String
deriving DecidableEq

/-- The OS errors expressible in this state model, with `str(e)` rendered in
CPython's format.  (Which of `ENOENT`/`ENOTDIR` is reported for a composite
parent failure is collapsed to one constructor; no statement below depends
on the text of these messages.) -/
inductive OSError where
  | noSuchFile (p : String)
  | isADirectory (p : String)
  | notADirectory (p : String)
  | fileExists (p : String)
deriving DecidableEq

def OSError.toString : OSError → String
  | .noSuchFile p => "[Errno 2] No such file or directory: " ++ "'" ++ p ++ "'"
  | .isADirectory p => "[Errno 21] Is a directory: " ++ "'" ++ p ++ "'"
  | .notADirectory p => "[Errno 20] Not a directory: " ++ "'" ++ p ++ "'"
  | .fileExists p => "[Errno 17] File exists: " ++ "'" ++ p ++ "'"

/-- Every name the filesystem holds (file paths then directory paths). -/
def FS.allNames (fs : FS) : List String := fs.files.map Prod.fst ++ fs.dirs

/-- Model of `os.path.exists`. -/
def FS.pathExists (fs : FS) (p : String) : Bool :=
  (fs.files.lookup p).isSome || fs.dirs.contains p

/-- Model of `open(p).read()`: the content of file `p`, or the `OSError` that
`open(p, "r")` raises. -/
def FS.readFile (fs : FS) (p : String) : Except OSError String :=
  if fs.dirs.contains p then .error (.isADirectory p)
  else
    match fs.files.lookup p with
    | some c => .ok c
    | none => .error (.noSuchFile p)

/-- Overwrite or create the file `p` with content `c` (no failure checking;
`FS.writeFile` performs the checks).  The position of `p` in the
association list is a model artifact with no Python counterpart. -/
def FS.setFile (fs : FS) (p c : String) : FS :=
  { fs with files := (p, c) :: fs.files.filter (fun pr => pr.1 ≠ p) }

/-- Model of `open(p, "w")` followed by `write(c)`: fails when `p` is empty, is an
existing directory, or has a parent that is not an existing directory. -/
def FS.writeFile (fs : FS) (p c : String) : Except OSError FS :=
  if p = "" then .error (.noSuchFile p)
  else if fs.dirs.contains p then .error (.isADirectory p)
  else if dirname p ≠ "" ∧ fs.dirs.contains (dirname p) = false then
    .error (.notADirectory p)
  else .ok (fs.setFile p c)

/-- Models `os.makedirs(name)` (no `exist_ok`): creates `name` and every
missing ancestor; raises `FileExistsError` when `name` exists, and fails
without creating anything when a component exists as a regular file (CPython
checks each level before creating anything below it). -/
def FS.makedirs (fs : FS) (name : String) : Except OSError FS :=
  if fs.pathExists name then .error (.fileExists name)
  else if (dirChain name).any (fun q => (fs.files.lookup q).isSome) then
    .error (.notADirectory name)
  else
    .ok { fs with
          dirs := ((dirChain name).filter (fun q => ¬ fs.pathExists q)) ++ fs.dirs }

/-- Canonical relative path: nonempty, no leading or trailing separator, no
empty component. -/
def validName (s : String) : Bool :=
  decide (s.data ≠ []) && decide (s.data.head? ≠ some '/')
    && decide (s.data.getLast? ≠ some '/') && !(occursB ['/', '/'] s.data)

/-- Well-formed filesystem: distinct names, files and directories disjoint,
every name canonical, and the parent chain of every name present as
directories (as on a real filesystem). -/
def FS.wf (fs : FS) : Prop :=
  (fs.files.map Prod.fst).Nodup ∧ fs.dirs.Nodup ∧
    (∀ p ∈ fs.files.map Prod.fst, p ∉ fs.dirs) ∧
    (∀ p ∈ fs.allNames, validName p = true) ∧
    (∀ p ∈ fs.allNames, ∀ d ∈ ancestors p, d ∈ fs.dirs)

/-! ## Association-list and membership lemmas -/

theorem lookup_isSome_iff_mem_keys (p : String) :
    ∀ l : List (String × String), (l.lookup p).isSome = true ↔ p ∈ l.map Prod.fst := by
  intro l
  induction l with
  | nil => simp [List.lookup]
  | cons pr rest ih =>
    cases pr with
    | mk k v =>
      by_cases h : p = k
      · subst h; simp [List.lookup]
      · have hb : (p == k) = false := beq_false_of_ne h
        simp [List.lookup, hb, ih, h]

theorem lookup_eq_some_mem_keys {p c : String} {l : List (String × String)}
    (h : l.lookup p = some c) : p ∈ l.map Prod.fst :=
  (lookup_isSome_iff_mem_keys p l).mp (by simp [h])

theorem contains_iff_mem (l : List String) (p : String) :
    l.contains p = true ↔ p ∈ l := by
  simp [List.contains]

theorem setFile_lookup_self (fs : FS) (p c : String) :
    ((fs.setFile p c).files.lookup p) = some c := by
  simp [FS.setFile, List.lookup]

theorem lookup_filter_ne (p q : String) (h : q ≠ p) :
    ∀ l : List (String × String),
      (l.filter (fun pr => pr.1 ≠ p)).lookup q = l.lookup q := by
  intro l
  induction l with
  | nil => rfl
  | cons pr rest ih =>
    cases pr with
    | mk k w =>
      by_cases hk : k = p
      · subst hk
        have hb : (q == k) = false := beq_false_of_ne h
        simp only [List.filter]
        have : (decide ((k, w).1 ≠ k)) = false := by simp
        rw [this]
        simp only [List.lookup, hb]
        exact ih
      · simp only [List.filter]
        have : (decide ((k, w).1 ≠ p)) = true := by simp [hk]
        rw [this]
        by_cases hq : q = k
        · subst hq; simp [List.lookup]
        · have hb : (q == k) = false := beq_false_of_ne hq
          simp only [List.lookup, hb]
          exact ih

theorem setFile_lookup_other (fs : FS) (p c q : String) (h : q ≠ p) :
    ((fs.setFile p c).files.lookup q) = fs.files.lookup q := by
  have hb : (q == p) = false := beq_false_of_ne h
  simp only [FS.setFile, List.lookup, hb]
  exact lookup_filter_ne p q h fs.files

theorem setFile_dirs (fs : FS) (p c : String) : (fs.setFile p c).dirs = fs.dirs := rfl

/-! ## The tools (main.py lines 128-203), on parsed argument objects -/

/-- The `read_file` tool (main.py lines 128-137), given the parsed argument dict. -/
def read_file (fs : FS) (input_data : List (String × String)) : String :=
  match input_data.lookup "path" with
  | none => "Path parameter is required"
  | some path =>
    match fs.readFile path with
    | .ok content => content
    | .error e => e.toString

/-- Model of `json.dumps` escaping for one string: only the quote and backslash cases
arise for the canonical names in this model (no control or non-ASCII
characters). -/
def jsonEscape (s : String) : String :=
  ⟨s.data.foldr
    (fun c acc =>
      (if c = '"' then ['\\', '"'] else if c = '\\' then ['\\', '\\'] else [c]) ++ acc)
    []⟩

def jsonQuote (s : String) : String := "\"" ++ jsonEscape s ++ "\""

/-- Model of `json.dumps` on a list of strings (default separators). -/
def json_dumps (l : List String) : String :=
  "[" ++ String.intercalate ", " (l.map jsonQuote) ++ "]"

/-- Does `Path(dirPath).glob("**/*")` yield the entry named `q`?  For the
default `"."` every canonical relative name matches; otherwise exactly the
names strictly below `dirPath`. -/
def isUnder (dirPath q : String) : Bool :=
  if dirPath = "." then true else (dirPath ++ "/").data.isPrefixOf q.data

/-- Model of `p.relative_to(dir_path)` for a glob result. -/
def relTo (dirPath q : String) : String :=
  if dirPath = "." then q else ⟨q.data.drop (dirPath.data.length + 1)⟩

/-- The strings accumulated by the loop in `list_files`: glob results in the
model's enumeration order (files then directories), relativised, with
directories marked by a trailing separator. -/
def globEntries (fs : FS) (dirPath : String) : List String :=
  ((fs.allNames).filter (fun q => isUnder dirPath q)).map
    (fun q => if fs.dirs.contains q then relTo dirPath q ++ "/" else relTo dirPath q)

/-- The `list_files` tool (main.py lines 139-154), given the parsed argument dict.
`Path(dir_path).glob("**/*")` yields nothing (raising no exception) when
`dir_path` does not exist or is not a directory. -/
def list_files (fs : FS) (input_data : List (String × String)) : String :=
  json_dumps (globEntries fs ((input_data.lookup "path").getD "."))

/-- The `edit_file` tool (main.py lines 156-203), given the parsed argument dict.
Returns the new filesystem state alongside the result string (on an uncaught
`OSError` the state reached so far persists, as on a real filesystem). -/
def edit_file (fs : FS) (input_data : List (String × String)) : FS × String :=
  match input_data.lookup "path" with
  | none => (fs, "Path parameter is required")
  | some path =>
    let old_str := (input_data.lookup "old_str").getD ""
    let new_str := (input_data.lookup "new_str").getD ""
    if old_str = new_str then (fs, "old_str and new_str must be different")
    else
      if fs.pathExists path then
        match fs.readFile path with
        | .error e => (fs, e.toString)
        | .ok content =>
          if old_str = "" then (fs, "File already exists, and old_str is empty")
          else
            let new_content := strReplace content old_str new_str
            if content = new_content then (fs, "old_str not found in file")
            else
              match fs.writeFile path new_content with
              | .error e => (fs, e.toString)
              | .ok fs1 => (fs1, "OK")
      else
        if old_str = "" then
          let parent_dir := dirname path
          match
            (if parent_dir ≠ "" ∧ fs.pathExists parent_dir = false then
              fs.makedirs parent_dir
            else .ok fs) with
          | .error e => (fs, e.toString)
          | .ok fs1 =>
            match fs1.writeFile path new_str with
            | .error e => (fs1, e.toString)
            | .ok fs2 => (fs2, "Successfully created file " ++ path)
        else (fs, "File " ++ path ++ " does not exist")

/-- The canonical argument dict for an `edit_file` call. -/
def editInput (path old_str new_str : String) : List (String × String) :=
  [("path", path), ("old_str", old_str), ("new_str", new_str)]

/-! ## JSON arguments, dispatch, and the conversation loop -/

/-- The values `json.loads` can deliver in this model: a flat object with
string keys and values (what the tools consume), or a bare integer (which
exercises the dispatch-level exception handling). -/
inductive JsonValue where
  | obj (pairs : List (String × String))
  | int (n : Nat)
deriving DecidableEq

/-- Exceptions a tool function can raise before entering its own
`try` block (main.py lines 130, 141, 158), caught at the dispatch boundary;
`str(e)` of these is just the message. -/
inductive PyError where
  | typeError (msg : String)
  | attributeError (msg : String)
deriving DecidableEq

def PyError.toString : PyError → String
  | .typeError m => m
  | .attributeError m => m

def jsonWs (c : Char) : Bool := c = ' ' || c = '\n' || c = '\t' || c = '\r'

/-- Scan a JSON string literal after its opening quote; escape sequences are
outside the modelled fragment. -/
def scanString : List Char → Option (List Char × List Char)
  | [] => none
  | c :: rest =>
    if c = '"' then some ([], rest)
    else if c = '\\' then none
    else (scanString rest).map (fun pr => (c :: pr.1, pr.2))

/-- Parse the members of a flat string object, starting after `{`. -/
def parseMembers : Nat → List Char → Option (List (String × String) × List Char)
  | 0, _ => none
  | fuel + 1, s =>
    match (s.dropWhile jsonWs : List Char) with
    | '"' :: r1 =>
      match scanString r1 with
      | none => none
      | some (key, r2) =>
        match (r2.dropWhile jsonWs : List Char) with
        | ':' :: r4 =>
          match (r4.dropWhile jsonWs : List Char) with
          | '"' :: r6 =>
            match scanString r6 with
            | none => none
            | some (val, r7) =>
              match (r7.dropWhile jsonWs : List Char) with
              | ',' :: r9 =>
                match parseMembers fuel r9 with
                | none => none
                | some (restPairs, r10) => some ((⟨key⟩, ⟨val⟩) :: restPairs, r10)
              | '\x7d' :: r9 => some ([(⟨key⟩, ⟨val⟩)], r9)
              | _ => none
          | _ => none
        | _ => none
    | _ => none

def digitsToNat (l : List Char) : Nat :=
  l.foldl (fun acc c => acc * 10 + (c.toNat - 48)) 0

/-- Model of `json.loads` on the modelled fragment (flat string objects and bare
integer literals); everything else is malformed and raises
`json.JSONDecodeError` (the text of the error is abbreviated). -/
def json_loads (s : String) : Except String JsonValue :=
  match (s.data.dropWhile jsonWs : List Char) with
  | '\x7b' :: r =>
    match (r.dropWhile jsonWs : List Char) with
    | '\x7d' :: r2 =>
      if (r2.dropWhile jsonWs).isEmpty then .ok (.obj []) else .error "Extra data"
    | _ =>
      match parseMembers (r.length + 1) r with
      | some (pairs, rest) =>
        if (rest.dropWhile jsonWs).isEmpty then .ok (.obj pairs)
        else .error "Extra data"
      | none => .error "Expecting property name enclosed in double quotes"
  | l =>
    let digits := l.takeWhile (fun c => c.isDigit)
    let rest := l.dropWhile (fun c => c.isDigit)
    if digits ≠ [] ∧ (rest.dropWhile jsonWs).isEmpty
        ∧ (digits.length = 1 ∨ digits.head? ≠ some '0') then
      .ok (.int (digitsToNat digits))
    else .error "Expecting value"

/-- The `read_file` tool as dispatch sees it: the code before the tool's own `try`
(`"path" not in input_data`, line 130) raises `TypeError` on a non-dict. -/
def read_file_fn (fs : FS) (v : JsonValue) : Except PyError (FS × String) :=
  match v with
  | .int _ => .error (.typeError "argument of type 'int' is not iterable")
  | .obj pairs => .ok (fs, read_file fs pairs)

/-- The `list_files` tool as dispatch sees it: `input_data.get` (line 141) raises
`AttributeError` on a non-dict. -/
def list_files_fn (fs : FS) (v : JsonValue) : Except PyError (FS × String) :=
  match v with
  | .int _ => .error (.attributeError "'int' object has no attribute 'get'")
  | .obj pairs => .ok (fs, list_files fs pairs)

/-- The `edit_file` tool as dispatch sees it (`"path" not in input_data`, line 158). -/
def edit_file_fn (fs : FS) (v : JsonValue) : Except PyError (FS × String) :=
  match v with
  | .int _ => .error (.typeError "argument of type 'int' is not iterable")
  | .obj pairs => .ok (edit_file fs pairs)

/-- The registry `self.tool_functions` (main.py lines 28-32). -/
def tool_functions : List (String × (FS → JsonValue → Except PyError (FS × String))) :=
  [("read_file", read_file_fn), ("list_files", list_files_fn), ("edit_file", edit_file_fn)]

/-- Dispatch, `Agent.execute_tool` (main.py lines 89-100): unknown names yield the
fixed string; an exception raised by the tool function is caught and its
message returned. -/
def Agent.execute_tool (fs : FS) (_id name : String) (v : JsonValue) : FS × String :=
  match tool_functions.lookup name with
  | none => (fs, "Tool not found")
  | some f =>
    match f fs v with
    | .ok r => r
    | .error e => (fs, e.toString)

/-- One requested tool call from the model's reply. -/
structure ToolCallFunction where
  name : String
  arguments : String
deriving DecidableEq

structure ToolCall where
  id : String
  function : ToolCallFunction
deriving DecidableEq

/-- One transcript entry (`conversation` in main.py).  The assistant's
`content` and `tool_calls` fields hold `none` when the appended dict bound
them to `None`. -/
inductive ChatMessage where
  | user (content : String)
  | assistant (content : Option String) (tool_calls : Option (List ToolCall))
  | tool (tool_call_id : String) (content : String)
deriving DecidableEq

/-- The dict `Agent.run` receives from `run_inference`.  The outer `Option`
is key presence (`dict.get` only applies its default when the key is
absent); the inner `Option` is JSON `null` — `model_dump()` always emits
both keys, possibly bound to `None`. -/
structure InfResult where
  content : Option (Option String) := none
  tool_calls : Option (Option (List ToolCall)) := none
deriving DecidableEq

/-- What the inference call produced: a parsed reply, or a raised exception
(transport or API failure). -/
inductive ApiOutcome where
  | reply (content : Option String) (tool_calls : Option (List ToolCall))
  | exn (e : String)

/-- The inference step, `Agent.run_inference` (main.py lines 102-124): a successful call returns
`model_dump()` (both keys present); any exception is caught and becomes a
synthetic dict whose only key is `content`. -/
def Agent.run_inference : ApiOutcome → InfResult
  | .reply c tcs => { content := some c, tool_calls := some tcs }
  | .exn e => { content := some (some ("Error: " ++ e)), tool_calls := none }

/-- Result of processing one model reply inside `Agent.run`'s loop body:
either the updated filesystem, transcript and `read_user_input` flag, or an
uncaught exception (only `KeyboardInterrupt` is caught in `run`). -/
inductive TurnOutcome where
  | ok (fs : FS) (conversation : List ChatMessage) (read_user_input : Bool)
  | raised (fs : FS) (e : String)
deriving DecidableEq

/-- The `for tool_call in message["tool_calls"]` loop (main.py lines 64-74):
`json.loads` on a malformed argument string raises out of the loop; results
are accumulated in call order, correlated by `tool_call["id"]`. -/
def runToolCalls (fs : FS) : List ToolCall → TurnOutcome
  | [] => .ok fs [] true
  | tc :: rest =>
    match json_loads tc.function.arguments with
    | .error e => .raised fs e
    | .ok v =>
      match Agent.execute_tool fs tc.id tc.function.name v with
      | (fs1, result) =>
        match runToolCalls fs1 rest with
        | .ok fs2 msgs flag => .ok fs2 (ChatMessage.tool tc.id result :: msgs) flag
        | .raised fs2 e => .raised fs2 e

/-- Main.py lines 52-82 after `run_inference` returned `msg`: append the
assistant message (with `dict.get` defaults), execute any tool calls, append
their results, and report whether the loop will wait for user input. -/
def Agent.processReply (fs : FS) (conversation : List ChatMessage)
    (msg : InfResult) : TurnOutcome :=
  let contentVal : Option String := msg.content.getD (some "")
  let toolCallsVal : Option (List ToolCall) := msg.tool_calls.getD (some [])
  let conv1 := conversation ++ [ChatMessage.assistant contentVal toolCallsVal]
  match toolCallsVal with
  | none => .ok fs conv1 true
  | some tcs =>
    match runToolCalls fs tcs with
    | .raised fs1 e => .raised fs1 e
    | .ok fs1 results _ =>
      if results.isEmpty then .ok fs1 conv1 true
      else .ok fs1 (conv1 ++ results) false

/-! ## Claim C5: tool dispatch -/

/-- C5: for every tool name outside the registry, `Agent.execute_tool`
returns the fixed "Tool not found" string for any id and argument value;
and for every registered tool, an exception raised by the tool function is
caught at the dispatch boundary and its message string returned as the
tool's output — dispatch is a total function, nothing propagates. -/
theorem c5_dispatch_unknown_tool_and_caught_exceptions :
    (∀ name : String, name ∉ (["read_file", "list_files", "edit_file"] : List String) →
      ∀ (fs : FS) (id : String) (v : JsonValue),
        Agent.execute_tool fs id name v = (fs, "Tool not found"))
    ∧ (∀ (name : String) (f : FS → JsonValue → Except PyError (FS × String)),
        tool_functions.lookup name = some f →
        ∀ (fs : FS) (id : String) (v : JsonValue) (e : PyError),
          f fs v = .error e →
          Agent.execute_tool fs id name v = (fs, e.toString)) := by
  constructor
  · intro name h fs id v
    simp only [List.mem_cons, List.not_mem_nil, or_false, not_or] at h
    obtain ⟨h1, h2, h3⟩ := h
    rw [Agent.execute_tool]
    have : tool_functions.lookup name = none := by
      simp [tool_functions, List.lookup, beq_false_of_ne h1, beq_false_of_ne h2,
        beq_false_of_ne h3]
    rw [this]
  · intro name f hf fs id v e he
    simp only [Agent.execute_tool, hf, he]

theorem c5_dispatch_witness :
    ("frobnicate" ∉ (["read_file", "list_files", "edit_file"] : List String)
      ∧ Agent.execute_tool ⟨[], []⟩ "id1" "frobnicate" (.obj [])
          = (⟨[], []⟩, "Tool not found"))
    ∧ (tool_functions.lookup "read_file" = some read_file_fn
      ∧ read_file_fn ⟨[], []⟩ (.int 7)
          = .error (.typeError "argument of type 'int' is not iterable")
      ∧ Agent.execute_tool ⟨[], []⟩ "id2" "read_file" (.int 7)
          = (⟨[], []⟩, (PyError.typeError "argument of type 'int' is not iterable").toString)) := by
  refine ⟨⟨by decide, ?_⟩, rfl, rfl, ?_⟩
  · exact c5_dispatch_unknown_tool_and_caught_exceptions.1 "frobnicate" (by decide)
      ⟨[], []⟩ "id1" (.obj [])
  · exact c5_dispatch_unknown_tool_and_caught_exceptions.2 "read_file" read_file_fn rfl
      ⟨[], []⟩ "id2" (.int 7) (.typeError "argument of type 'int' is not iterable") rfl

/-! ## Claim C1: error containment in the conversation loop -/

/-- C1 (code divergence): a tool call whose JSON argument string is
malformed makes `json.loads` (main.py line 68) raise `json.JSONDecodeError`
inside the loop body; `Agent.run` catches only `KeyboardInterrupt`, so the
conversation loop aborts instead of converting the failure into a
transcript message. -/
theorem c1_malformed_tool_arguments_abort_loop :
    Agent.processReply ⟨[], []⟩ []
        { content := some none,
          tool_calls := some (some [⟨"call_1", ⟨"read_file", "\x7b"⟩⟩]) }
      = TurnOutcome.raised ⟨[], []⟩ "Expecting property name enclosed in double quotes" := by
  rfl

/-! ## Claims C4 and C8: processing one model reply -/

/-- When every argument string decodes, the tool-call loop returns one
tool-result message per call, in call order, each correlated to its call's
id. -/
theorem runToolCalls_ok_of_decodes :
    ∀ (tcs : List ToolCall) (fs : FS),
      (∀ tc ∈ tcs, ∃ v, json_loads tc.function.arguments = Except.ok v) →
      ∃ (fs1 : FS) (results : List ChatMessage) (flag : Bool),
        runToolCalls fs tcs = .ok fs1 results flag
        ∧ results.length = tcs.length
        ∧ (∀ (i : Nat) (tc : ToolCall), tcs[i]? = some tc →
            ∃ s, results[i]? = some (ChatMessage.tool tc.id s)) := by
  intro tcs
  induction tcs with
  | nil =>
    intro fs _
    exact ⟨fs, [], true, rfl, rfl, by intro i tc h; simp at h⟩
  | cons tc rest ih =>
    intro fs h
    obtain ⟨v, hv⟩ := h tc (List.mem_cons_self _ _)
    rcases hx : Agent.execute_tool fs tc.id tc.function.name v with ⟨fsa, r⟩
    obtain ⟨fs2, results, flag, hrun, hlen, hids⟩ :=
      ih fsa (fun tc' htc' => h tc' (List.mem_cons_of_mem _ htc'))
    refine ⟨fs2, ChatMessage.tool tc.id r :: results,
      flag, ?_, by simp [hlen], ?_⟩
    · simp only [runToolCalls, hv, hx, hrun]
    · intro i tc' hi
      cases i with
      | zero =>
        simp only [List.getElem?_cons_zero, Option.some.injEq] at hi
        subst hi
        exact ⟨r, by simp⟩
      | succ n =>
        simp only [List.getElem?_cons_succ] at hi ⊢
        exact hids n tc' hi

/-- C4: a reply carrying `n ≥ 1` decodable tool calls produces exactly `n`
tool-result messages appended after the assistant message, in call order,
each carrying its originating call's id, with `read_user_input = false`
(immediate re-inference); a reply with zero tool calls returns the loop to
awaiting user input. -/
theorem c4_tool_calls_executed_in_order :
    ∀ (fs : FS) (conv : List ChatMessage) (c : Option String) (tcs : List ToolCall),
      (∀ tc ∈ tcs, ∃ v, json_loads tc.function.arguments = Except.ok v) →
      (tcs = [] →
        Agent.processReply fs conv { content := some c, tool_calls := some (some tcs) }
          = TurnOutcome.ok fs (conv ++ [ChatMessage.assistant c (some tcs)]) true)
      ∧ (tcs ≠ [] →
        ∃ (fs1 : FS) (results : List ChatMessage),
          Agent.processReply fs conv { content := some c, tool_calls := some (some tcs) }
            = TurnOutcome.ok fs1 (conv ++ ChatMessage.assistant c (some tcs) :: results) false
          ∧ results.length = tcs.length
          ∧ (∀ (i : Nat) (tc : ToolCall), tcs[i]? = some tc →
              ∃ s, results[i]? = some (ChatMessage.tool tc.id s))) := by
  intro fs conv c tcs h
  constructor
  · rintro rfl
    rfl
  · intro hne
    obtain ⟨fs1, results, flag, hrun, hlen, hids⟩ := runToolCalls_ok_of_decodes tcs fs h
    have hres : results.isEmpty = false := by
      cases results with
      | nil =>
        exfalso
        exact hne (List.eq_nil_of_length_eq_zero hlen.symm)
      | cons a l => rfl
    refine ⟨fs1, results, ?_, hlen, hids⟩
    simp only [Agent.processReply, Option.getD_some]
    rw [hrun]
    simp only [hres, Bool.false_eq_true, if_false]
    rw [List.append_cons conv _ results]

theorem c4_witness :
    (∀ tc ∈ ([⟨"call_1", ⟨"read_file", "\x7b\x7d"⟩⟩,
              ⟨"call_2", ⟨"missing_tool", "\x7b\x7d"⟩⟩] : List ToolCall),
      ∃ v, json_loads tc.function.arguments = Except.ok v)
    ∧ ∃ (fs1 : FS) (results : List ChatMessage),
        Agent.processReply ⟨[], []⟩ [ChatMessage.user "hi"]
            { content := some none,
              tool_calls := some (some [⟨"call_1", ⟨"read_file", "\x7b\x7d"⟩⟩,
                                        ⟨"call_2", ⟨"missing_tool", "\x7b\x7d"⟩⟩]) }
          = TurnOutcome.ok fs1
              ([ChatMessage.user "hi"]
                ++ ChatMessage.assistant none
                    (some [⟨"call_1", ⟨"read_file", "\x7b\x7d"⟩⟩,
                           ⟨"call_2", ⟨"missing_tool", "\x7b\x7d"⟩⟩]) :: results) false
          ∧ results.length
              = ([⟨"call_1", ⟨"read_file", "\x7b\x7d"⟩⟩,
                  ⟨"call_2", ⟨"missing_tool", "\x7b\x7d"⟩⟩] : List ToolCall).length
          ∧ (∀ (i : Nat) (tc : ToolCall),
              ([⟨"call_1", ⟨"read_file", "\x7b\x7d"⟩⟩,
                ⟨"call_2", ⟨"missing_tool", "\x7b\x7d"⟩⟩] : List ToolCall)[i]? = some tc →
              ∃ s, results[i]? = some (ChatMessage.tool tc.id s)) := by
  have hdec : ∀ tc ∈ ([⟨"call_1", ⟨"read_file", "\x7b\x7d"⟩⟩,
              ⟨"call_2", ⟨"missing_tool", "\x7b\x7d"⟩⟩] : List ToolCall),
      ∃ v, json_loads tc.function.arguments = Except.ok v := by
    intro tc htc
    simp only [List.mem_cons, List.not_mem_nil, or_false] at htc
    cases htc with
    | inl h => exact ⟨.obj [], by subst h; rfl⟩
    | inr h => exact ⟨.obj [], by subst h; rfl⟩
  exact ⟨hdec,
    (c4_tool_calls_executed_in_order ⟨[], []⟩ [ChatMessage.user "hi"] none _ hdec).2
      (by decide)⟩

/-- C8 (counterexample): a reply whose `content` and `tool_calls` keys are
bound to `None` — what `model_dump()` yields for a reply with no content
and no tool calls — is appended with both fields `None`: `dict.get`'s
defaults `""` and `[]` apply only when a key is absent, which `model_dump()`
never produces. -/
theorem c8_counterexample_null_not_defaulted :
    Agent.processReply ⟨[], []⟩ [] { content := some none, tool_calls := some none }
        = TurnOutcome.ok ⟨[], []⟩ [ChatMessage.assistant none none] true
      ∧ ChatMessage.assistant none none ≠ ChatMessage.assistant (some "") (some [])
      ∧ ChatMessage.assistant none none ≠ ChatMessage.assistant none (some []) := by
  exact ⟨rfl, by decide, by decide⟩

/-- C8 (amended): the appended assistant message carries exactly the
reply's `content` and `tool_calls` values, with `dict.get` defaulting the
empty string / empty list only when the corresponding key is absent; a
reply whose fields are JSON `null` is appended with `none` fields, not with
`""`/`[]`. -/
theorem c8_assistant_message_appended :
    ∀ (fs : FS) (conv : List ChatMessage) (msg : InfResult),
      (∀ tc ∈ (msg.tool_calls.getD (some [])).getD [],
        ∃ v, json_loads tc.function.arguments = Except.ok v) →
      ∃ (fs1 : FS) (rest : List ChatMessage) (flag : Bool),
        Agent.processReply fs conv msg
          = TurnOutcome.ok fs1
              (conv ++ ChatMessage.assistant (msg.content.getD (some ""))
                  (msg.tool_calls.getD (some [])) :: rest) flag := by
  intro fs conv msg h
  rcases htv : msg.tool_calls.getD (some []) with _ | tcs
  · refine ⟨fs, [], true, ?_⟩
    simp only [Agent.processReply, htv]
  · rw [htv] at h
    obtain ⟨fs1, results, flag, hrun, _, _⟩ :=
      runToolCalls_ok_of_decodes tcs fs (by simpa using h)
    by_cases hres : results.isEmpty = true
    · refine ⟨fs1, [], true, ?_⟩
      simp only [Agent.processReply, htv, hrun, hres, if_true]
    · refine ⟨fs1, results, false, ?_⟩
      simp only [Agent.processReply, htv, hrun, if_neg hres]
      rw [List.append_cons conv _ results]

theorem c8_witness :
    (∀ tc ∈ ((({ content := none, tool_calls := none } : InfResult).tool_calls.getD
          (some [])).getD []),
      ∃ v, json_loads tc.function.arguments = Except.ok v)
    ∧ ∃ (fs1 : FS) (rest : List ChatMessage) (flag : Bool),
        Agent.processReply ⟨[], []⟩ [] { content := none, tool_calls := none }
          = TurnOutcome.ok fs1
              ([] ++ ChatMessage.assistant
                  ((({ content := none, tool_calls := none } : InfResult).content).getD
                    (some ""))
                  ((({ content := none, tool_calls := none } : InfResult).tool_calls).getD
                    (some [])) :: rest) flag := by
  refine ⟨by intro tc htc; simp at htc, ?_⟩
  exact c8_assistant_message_appended ⟨[], []⟩ [] { content := none, tool_calls := none }
    (by intro tc htc; simp at htc)

/-! ## Claims C2, C3, C7, C9: edit_file -/

/-- Unfolding of `edit_file` on the canonical three-field argument dict. -/
theorem edit_file_editInput (fs : FS) (path old_str new_str : String) :
    edit_file fs (editInput path old_str new_str) =
      (if old_str = new_str then (fs, "old_str and new_str must be different")
      else
        if fs.pathExists path then
          match fs.readFile path with
          | .error e => (fs, e.toString)
          | .ok content =>
            if old_str = "" then (fs, "File already exists, and old_str is empty")
            else
              if content = strReplace content old_str new_str then
                (fs, "old_str not found in file")
              else
                match fs.writeFile path (strReplace content old_str new_str) with
                | .error e => (fs, e.toString)
                | .ok fs1 => (fs1, "OK")
        else
          if old_str = "" then
            match
              (if dirname path ≠ "" ∧ fs.pathExists (dirname path) = false then
                fs.makedirs (dirname path)
              else .ok fs) with
            | .error e => (fs, e.toString)
            | .ok fs1 =>
              match fs1.writeFile path new_str with
              | .error e => (fs1, e.toString)
              | .ok fs2 => (fs2, "Successfully created file " ++ path)
          else (fs, "File " ++ path ++ " does not exist")) := rfl

/-- C2: on an existing target file (in a well-formed filesystem), an empty
`old_str` is rejected without touching the file; a nonempty occurring
`old_str` makes the file's full content the global literal replacement and
returns the plain "OK" marker; a nonempty non-occurring `old_str` returns
"old_str not found in file" with the filesystem unchanged. -/
theorem c2_edit_file_on_existing_file :
    ∀ (fs : FS) (path content : String), FS.wf fs →
      fs.files.lookup path = some content →
      (∀ new_str : String,
        edit_file fs (editInput path "" new_str)
          = (fs, if ("" : String) = new_str then "old_str and new_str must be different"
                 else "File already exists, and old_str is empty"))
      ∧ (∀ old_str new_str : String, old_str ≠ "" → old_str ≠ new_str →
          strOccurs old_str content = true →
          edit_file fs (editInput path old_str new_str)
            = (fs.setFile path (strReplace content old_str new_str), "OK")
          ∧ (fs.setFile path (strReplace content old_str new_str)).files.lookup path
              = some (strReplace content old_str new_str))
      ∧ (∀ old_str new_str : String, old_str ≠ "" → old_str ≠ new_str →
          strOccurs old_str content = false →
          edit_file fs (editInput path old_str new_str)
            = (fs, "old_str not found in file")) := by
  intro fs path content hwf hlook
  obtain ⟨hnodup, hnodupd, hdisj, hvalid, hclosed⟩ := hwf
  have hmem : path ∈ fs.files.map Prod.fst := lookup_eq_some_mem_keys hlook
  have hnd : path ∉ fs.dirs := hdisj path hmem
  have hcont : fs.dirs.contains path = false := by
    cases hx : fs.dirs.contains path with
    | false => rfl
    | true => exact absurd ((contains_iff_mem _ _).mp hx) hnd
  have hex : fs.pathExists path = true := by
    simp [FS.pathExists, hlook]
  have hread : fs.readFile path = .ok content := by
    simp [FS.readFile, hnd, hlook]
  have hvp : validName path = true :=
    hvalid path (List.mem_append_left _ hmem)
  have hpne : path ≠ "" := by
    intro hh
    subst hh
    simp [validName] at hvp
  have hwrite : ∀ c, fs.writeFile path c = .ok (fs.setFile path c) := by
    intro c
    rw [FS.writeFile, if_neg hpne, if_neg (by simpa using hnd)]
    rw [if_neg ?h]
    case h =>
      rintro ⟨hd1, hd2⟩
      have hmema : dirname path ∈ ancestors path := dirname_mem_ancestors path hd1
      have hmemd := hclosed path (List.mem_append_left _ hmem) (dirname path) hmema
      rw [(contains_iff_mem _ _).mpr hmemd] at hd2
      exact absurd hd2 (by simp)
  refine ⟨?_, ?_, ?_⟩
  · intro new_str
    rw [edit_file_editInput]
    by_cases hnew : ("" : String) = new_str
    · rw [if_pos hnew, if_pos hnew]
    · rw [if_neg hnew, if_neg hnew, if_pos hex]
      simp only [hread]
      simp
  · intro old_str new_str ho hne hocc
    refine ⟨?_, setFile_lookup_self fs path _⟩
    rw [edit_file_editInput, if_neg hne, if_pos hex]
    simp only [hread]
    rw [if_neg ho,
      if_neg (fun hh => strReplace_ne_of_occurs content old_str new_str ho hne hocc hh.symm)]
    simp only [hwrite]
  · intro old_str new_str ho hne hocc
    rw [edit_file_editInput, if_neg hne, if_pos hex]
    simp only [hread]
    rw [if_neg ho, if_pos (strReplace_eq_of_not_occurs content old_str new_str hocc).symm]

theorem c2_witness :
    (FS.wf ⟨[("notes/a.txt", "hello world hello")], ["notes"]⟩
      ∧ (FS.mk [("notes/a.txt", "hello world hello")] ["notes"]).files.lookup "notes/a.txt"
          = some "hello world hello"
      ∧ ("hello" : String) ≠ "" ∧ ("hello" : String) ≠ "bye"
      ∧ strOccurs "hello" "hello world hello" = true)
    ∧ edit_file ⟨[("notes/a.txt", "hello world hello")], ["notes"]⟩
          (editInput "notes/a.txt" "hello" "bye")
        = ((FS.mk [("notes/a.txt", "hello world hello")] ["notes"]).setFile "notes/a.txt"
            (strReplace "hello world hello" "hello" "bye"), "OK")
      ∧ ((FS.mk [("notes/a.txt", "hello world hello")] ["notes"]).setFile "notes/a.txt"
            (strReplace "hello world hello" "hello" "bye")).files.lookup "notes/a.txt"
          = some (strReplace "hello world hello" "hello" "bye") := by
  refine ⟨⟨⟨by decide, by decide, by decide, by decide, by decide⟩, rfl,
    by decide, by decide, by decide⟩, ?_⟩
  exact (c2_edit_file_on_existing_file ⟨[("notes/a.txt", "hello world hello")], ["notes"]⟩
    "notes/a.txt" "hello world hello"
    ⟨by decide, by decide, by decide, by decide, by decide⟩ rfl).2.1
    "hello" "bye" (by decide) (by decide) (by decide)

/-- C7 (counterexample): global replacement can reintroduce `old_str`
across segment boundaries, so re-invoking an identical successful call can
succeed again instead of reporting "not found": replacing `"aba"` by `"b"`
in `"aabaa"` yields `"aba"`, and the identical second call succeeds with
"OK" (rewriting the file to `"b"`). -/
theorem c7_counterexample_second_call_succeeds :
    edit_file ⟨[("f.txt", "aabaa")], []⟩ (editInput "f.txt" "aba" "b")
        = (⟨[("f.txt", "aba")], []⟩, "OK")
      ∧ edit_file ⟨[("f.txt", "aba")], []⟩ (editInput "f.txt" "aba" "b")
        = (⟨[("f.txt", "b")], []⟩, "OK")
      ∧ ("OK" : String) ≠ "old_str not found in file" := by
  exact ⟨by decide, by decide, by decide⟩

/-- C7 (amended): whenever `old_str` (nonempty, different from `new_str`)
does not occur in the target file's current content, `edit_file` returns
"old_str not found in file" and leaves the filesystem unchanged; in
particular a repeated call is a no-op once `old_str` no longer occurs.
(The unconditional "second identical call returns not-found" fails because
replacement can reintroduce `old_str`, as the counterexample shows.) -/
theorem c7_not_found_once_absent :
    ∀ (fs : FS) (path content old_str new_str : String),
      fs.files.lookup path = some content →
      path ∉ fs.dirs →
      old_str ≠ "" → old_str ≠ new_str →
      strOccurs old_str content = false →
      edit_file fs (editInput path old_str new_str) = (fs, "old_str not found in file") := by
  intro fs path content old_str new_str hlook hnd ho hne hocc
  have hex : fs.pathExists path = true := by
    simp [FS.pathExists, hlook]
  have hread : fs.readFile path = .ok content := by
    simp [FS.readFile, hnd, hlook]
  rw [edit_file_editInput, if_neg hne, if_pos hex]
  simp only [hread]
  rw [if_neg ho, if_pos (strReplace_eq_of_not_occurs content old_str new_str hocc).symm]

theorem c7_witness :
    ((FS.mk [("f.txt", "bye world bye")] []).files.lookup "f.txt" = some "bye world bye"
      ∧ "f.txt" ∉ (FS.mk [("f.txt", "bye world bye")] []).dirs
      ∧ ("hello" : String) ≠ "" ∧ ("hello" : String) ≠ "bye"
      ∧ strOccurs "hello" "bye world bye" = false)
    ∧ edit_file ⟨[("f.txt", "bye world bye")], []⟩ (editInput "f.txt" "hello" "bye")
        = (⟨[("f.txt", "bye world bye")], []⟩, "old_str not found in file") := by
  refine ⟨⟨rfl, by decide, by decide, by decide, by decide⟩, ?_⟩
  exact c7_not_found_once_absent ⟨[("f.txt", "bye world bye")], []⟩ "f.txt"
    "bye world bye" "hello" "bye" rfl (by decide) (by decide) (by decide) (by decide)

theorem not_mem_of_contains_false (l : List String) (p : String)
    (h : l.contains p = false) : p ∉ l := by
  intro hm
  rw [(contains_iff_mem l p).mpr hm] at h
  exact absurd h (by simp)

theorem pathExists_false_parts (fs : FS) (p : String) (h : fs.pathExists p = false) :
    fs.files.lookup p = none ∧ fs.dirs.contains p = false := by
  rw [FS.pathExists, Bool.or_eq_false_iff] at h
  refine ⟨?_, h.2⟩
  have h1 := h.1
  cases hx : fs.files.lookup p with
  | none => rfl
  | some c => rw [hx] at h1; simp at h1

theorem makedirs_ok (fs : FS) (parent : String)
    (hdx : fs.pathExists parent = false)
    (hany : ∀ q ∈ dirChain parent, (fs.files.lookup q).isSome = false) :
    fs.makedirs parent
      = .ok { fs with
              dirs := ((dirChain parent).filter (fun q => ¬ fs.pathExists q)) ++ fs.dirs } := by
  rw [FS.makedirs, if_neg (by simp [hdx]), if_neg ?ha]
  case ha =>
    intro hh
    obtain ⟨q, hq, hq2⟩ := List.any_eq_true.mp hh
    rw [hany q hq] at hq2
    exact absurd hq2 (by simp)

theorem contains_mkdirs_dirs_path (fs : FS) (path : String)
    (hpe : fs.pathExists path = false)
    (hd : dirname path ≠ "") :
    (((dirChain (dirname path)).filter (fun q => ¬ fs.pathExists q)) ++ fs.dirs).contains path
      = false := by
  have hpne : path ≠ "" := ne_empty_of_dirname_ne_empty path hd
  cases hx : (((dirChain (dirname path)).filter (fun q => ¬ fs.pathExists q))
      ++ fs.dirs).contains path with
  | false => rfl
  | true =>
    exfalso
    have hmem := (contains_iff_mem _ _).mp hx
    cases List.mem_append.mp hmem with
    | inl hh =>
      have hchain := List.mem_of_mem_filter hh
      have hle := dirChain_length_le (dirname path) path hchain
      have hlt := dirname_length_lt path hpne
      omega
    | inr hh =>
      have := (pathExists_false_parts fs path hpe).2
      rw [(contains_iff_mem _ _).mpr hh] at this
      exact absurd this (by simp)

theorem contains_mkdirs_dirs_parent (fs : FS) (path : String)
    (hd : dirname path ≠ "")
    (hdx : fs.pathExists (dirname path) = false) :
    (((dirChain (dirname path)).filter (fun q => ¬ fs.pathExists q)) ++ fs.dirs).contains
        (dirname path) = true := by
  apply (contains_iff_mem _ _).mpr
  apply List.mem_append_left
  apply List.mem_filter.mpr
  exact ⟨self_mem_dirChain _ hd, by simp [hdx]⟩

theorem writeFile_ok (fs1 : FS) (path c : String)
    (hp : path ≠ "")
    (hc : fs1.dirs.contains path = false)
    (hpar : dirname path = "" ∨ fs1.dirs.contains (dirname path) = true) :
    fs1.writeFile path c = .ok (fs1.setFile path c) := by
  rw [FS.writeFile, if_neg hp,
    if_neg (fun hh => not_mem_of_contains_false _ _ hc ((contains_iff_mem _ _).mp hh)),
    if_neg ?hpp]
  case hpp =>
    rintro ⟨h1, h2⟩
    cases hpar with
    | inl hh => exact h1 hh
    | inr hh => rw [hh] at h2; exact absurd h2 (by simp)

/-- A second creating call against a now-existing file is rejected: the
file exists and `old_str` is empty. -/
theorem edit_file_existing_empty_old (fs2 : FS) (path new_str : String)
    (hnne : new_str ≠ "")
    (hlook : fs2.files.lookup path = some new_str)
    (hcont : fs2.dirs.contains path = false) :
    edit_file fs2 (editInput path "" new_str)
      = (fs2, "File already exists, and old_str is empty") := by
  rw [edit_file_editInput, if_neg (fun hh => hnne hh.symm),
    if_pos (by simp [FS.pathExists, hlook])]
  have hrd : fs2.readFile path = .ok new_str := by
    rw [FS.readFile,
      if_neg (fun hh => not_mem_of_contains_false _ _ hcont ((contains_iff_mem _ _).mp hh)),
      hlook]
  simp only [hrd]
  simp

/-- C3 (counterexample): when an ancestor of the target path exists as a
regular file (here the file `"x"` below the path `"x/y"`), the creating
call does not create anything — `open(path, "w")` raises `NotADirectoryError`
— and the stringified exception, not a success message, is returned. -/
theorem c3_counterexample_parent_is_regular_file :
    edit_file ⟨[("x", "")], []⟩ (editInput "x/y" "" "hello")
        = (⟨[("x", "")], []⟩, "[Errno 20] Not a directory: 'x/y'")
      ∧ ("[Errno 20] Not a directory: 'x/y'" : String) ≠ "Successfully created file " ++ "x/y"
      ∧ (FS.mk [("x", "")] []).files.lookup "x/y" = none := by
  exact ⟨by decide, by decide, rfl⟩

/-- C3 (amended): on a nonempty path that does not exist and none of whose
parent-chain entries exists as a regular file, `edit_file` with empty
`old_str` creates the missing parent directories and a file whose full
content is exactly `new_str`, returns the success message naming the path,
a second identical call fails because the file now exists with empty
`old_str`, and a nonempty `old_str` against the missing file changes
nothing and reports "does not exist". -/
theorem c3_create_missing_file :
    ∀ (fs : FS) (path new_str : String),
      fs.pathExists path = false →
      path ≠ "" →
      new_str ≠ "" →
      (∀ q ∈ dirChain (dirname path), (fs.files.lookup q).isSome = false) →
      (∃ fs2 : FS,
        edit_file fs (editInput path "" new_str)
            = (fs2, "Successfully created file " ++ path)
          ∧ fs2.files.lookup path = some new_str
          ∧ (∀ q, q ≠ path → fs2.files.lookup q = fs.files.lookup q)
          ∧ (∀ dq ∈ fs.dirs, dq ∈ fs2.dirs)
          ∧ (dirname path = "" ∨ dirname path ∈ fs2.dirs)
          ∧ edit_file fs2 (editInput path "" new_str)
              = (fs2, "File already exists, and old_str is empty"))
      ∧ (∀ old_str : String, old_str ≠ "" → old_str ≠ new_str →
          edit_file fs (editInput path old_str new_str)
            = (fs, "File " ++ path ++ " does not exist")) := by
  intro fs path new_str hpe hpne hnne hchain
  obtain ⟨hlooknone, hcont⟩ := pathExists_false_parts fs path hpe
  have hnew : ¬ (("" : String) = new_str) := fun hh => hnne hh.symm
  constructor
  · by_cases hmk : dirname path ≠ "" ∧ fs.pathExists (dirname path) = false
    · -- `os.makedirs` runs and creates the parent chain.
      obtain ⟨hd, hdx⟩ := hmk
      have hmkok := makedirs_ok fs (dirname path) hdx hchain
      have hc1 := contains_mkdirs_dirs_path fs path hpe hd
      have hc2 := contains_mkdirs_dirs_parent fs path hd hdx
      refine ⟨({ fs with
          dirs := ((dirChain (dirname path)).filter (fun q => ¬ fs.pathExists q))
            ++ fs.dirs } : FS).setFile path new_str, ?_, ?_, ?_, ?_, ?_, ?_⟩
      · rw [edit_file_editInput, if_neg hnew, if_neg (by simp [hpe]), if_pos rfl,
          if_pos ⟨hd, hdx⟩]
        simp only [hmkok]
        rw [writeFile_ok _ path new_str hpne hc1 (Or.inr hc2)]
      · exact setFile_lookup_self _ path new_str
      · intro q hq
        rw [setFile_lookup_other _ path new_str q hq]
      · intro dq hdq
        rw [setFile_dirs]
        exact List.mem_append_right _ hdq
      · right
        rw [setFile_dirs]
        exact (contains_iff_mem _ _).mp hc2
      · exact edit_file_existing_empty_old _ path new_str hnne
          (setFile_lookup_self _ path new_str)
          (by rw [setFile_dirs]; exact hc1)
    · -- `os.makedirs` is skipped: no parent, or the parent already exists.
      have hpar : dirname path = "" ∨ fs.dirs.contains (dirname path) = true := by
        by_cases hd : dirname path = ""
        · exact Or.inl hd
        · right
          have hdx : fs.pathExists (dirname path) = true := by
            rcases Bool.eq_false_or_eq_true (fs.pathExists (dirname path)) with hh | hh
            · exact hh
            · exact absurd ⟨hd, hh⟩ hmk
          rw [FS.pathExists, Bool.or_eq_true] at hdx
          cases hdx with
          | inl hh =>
            rw [hchain (dirname path) (self_mem_dirChain _ hd)] at hh
            exact absurd hh (by simp)
          | inr hh => exact hh
      refine ⟨fs.setFile path new_str, ?_, ?_, ?_, ?_, ?_, ?_⟩
      · rw [edit_file_editInput, if_neg hnew, if_neg (by simp [hpe]), if_pos rfl,
          if_neg hmk]
        simp only [writeFile_ok fs path new_str hpne hcont hpar]
      · exact setFile_lookup_self fs path new_str
      · intro q hq
        rw [setFile_lookup_other fs path new_str q hq]
      · intro dq hdq
        rw [setFile_dirs]
        exact hdq
      · cases hpar with
        | inl hh => exact Or.inl hh
        | inr hh =>
          right
          rw [setFile_dirs]
          exact (contains_iff_mem _ _).mp hh
      · exact edit_file_existing_empty_old _ path new_str hnne
          (setFile_lookup_self fs path new_str)
          (by rw [setFile_dirs]; exact hcont)
  · intro old_str ho hone
    rw [edit_file_editInput, if_neg hone, if_neg (by simp [hpe]), if_neg ho]

theorem c3_witness :
    ((FS.mk [] []).pathExists "new/dir/file.txt" = false
      ∧ ("new/dir/file.txt" : String) ≠ ""
      ∧ ("hello" : String) ≠ ""
      ∧ (∀ q ∈ dirChain (dirname "new/dir/file.txt"),
          ((FS.mk [] []).files.lookup q).isSome = false))
    ∧ (∃ fs2 : FS,
        edit_file ⟨[], []⟩ (editInput "new/dir/file.txt" "" "hello")
            = (fs2, "Successfully created file " ++ "new/dir/file.txt")
          ∧ fs2.files.lookup "new/dir/file.txt" = some "hello"
          ∧ (∀ q, q ≠ "new/dir/file.txt" →
              fs2.files.lookup q = (FS.mk [] []).files.lookup q)
          ∧ (∀ dq ∈ (FS.mk [] []).dirs, dq ∈ fs2.dirs)
          ∧ (dirname "new/dir/file.txt" = "" ∨ dirname "new/dir/file.txt" ∈ fs2.dirs)
          ∧ edit_file fs2 (editInput "new/dir/file.txt" "" "hello")
              = (fs2, "File already exists, and old_str is empty")) := by
  refine ⟨⟨by decide, by decide, by decide, by decide⟩, ?_⟩
  exact (c3_create_missing_file ⟨[], []⟩ "new/dir/file.txt" "hello"
    (by decide) (by decide) (by decide) (by decide)).1

/-- C9: whenever `edit_file` returns any result other than "OK" or the
creation success message — validation rejections, "not found",
"does not exist", missing parameter, or a stringified `OSError` — the
filesystem is exactly what it was before the call. -/
theorem c9_failure_leaves_filesystem_unchanged :
    ∀ (fs : FS) (input_data : List (String × String)),
      (edit_file fs input_data).1 = fs
      ∨ (edit_file fs input_data).2 = "OK"
      ∨ ∃ p, input_data.lookup "path" = some p
          ∧ (edit_file fs input_data).2 = "Successfully created file " ++ p := by
  intro fs d
  cases hp : d.lookup "path" with
  | none => exact Or.inl (by simp [edit_file, hp])
  | some path =>
    simp only [edit_file, hp]
    generalize (d.lookup "old_str").getD "" = o
    generalize (d.lookup "new_str").getD "" = n
    by_cases h1 : o = n
    · rw [if_pos h1]
      simp
    · rw [if_neg h1]
      by_cases hex : fs.pathExists path = true
      · rw [if_pos hex]
        cases hr : fs.readFile path with
        | error e =>
          simp only [hr]
          simp
        | ok content =>
          simp only [hr]
          by_cases h2 : o = ""
          · rw [if_pos h2]
            simp
          · rw [if_neg h2]
            by_cases h3 : content = strReplace content o n
            · rw [if_pos h3]
              simp
            · rw [if_neg h3]
              cases hw : fs.writeFile path (strReplace content o n) with
              | error e =>
                simp only [hw]
                simp
              | ok fs1 =>
                simp only [hw]
                simp
      · rw [if_neg hex]
        by_cases h2 : o = ""
        · rw [if_pos h2]
          by_cases hmk : dirname path ≠ "" ∧ fs.pathExists (dirname path) = false
          · rw [if_pos hmk]
            have hpe : fs.pathExists path = false := by
              rcases Bool.eq_false_or_eq_true (fs.pathExists path) with hh | hh
              · exact absurd hh hex
              · exact hh
            rw [FS.makedirs, if_neg (by simp [hmk.2])]
            by_cases hany :
                (dirChain (dirname path)).any (fun q => (fs.files.lookup q).isSome) = true
            · rw [if_pos hany]
              simp
            · rw [if_neg hany]
              have hw := writeFile_ok
                ({ fs with
                  dirs := ((dirChain (dirname path)).filter (fun q => ¬ fs.pathExists q))
                    ++ fs.dirs } : FS) path n
                (ne_empty_of_dirname_ne_empty path hmk.1)
                (contains_mkdirs_dirs_path fs path hpe hmk.1)
                (Or.inr (contains_mkdirs_dirs_parent fs path hmk.1 hmk.2))
              simp only [hw]
              simp
          · rw [if_neg hmk]
            cases hw : fs.writeFile path n with
            | error e =>
              simp only [hw]
              simp
            | ok fs2 =>
              simp only [hw]
              simp
        · rw [if_neg h2]
          simp

/-! ## Claims C6 and C10: list_files -/

theorem validName_getLast (s : String) (h : validName s = true) :
    s.data.getLast? ≠ some '/' := by
  simp only [validName, Bool.and_eq_true, decide_eq_true_eq] at h
  exact h.1.2

theorem isUnder_decomp (p q : String) (hp : p ≠ ".") (h : isUnder p q = true) :
    q.data = p.data ++ '/' :: (relTo p q).data := by
  rw [isUnder, if_neg hp] at h
  obtain ⟨t, ht⟩ := (isPrefixOf_iff_append _ _).mp h
  rw [String.data_append] at ht
  have ht' : q.data = p.data ++ '/' :: t := by simpa using ht
  have hrel : (relTo p q).data = t := by
    rw [relTo, if_neg hp]
    show q.data.drop (p.data.length + 1) = t
    rw [ht']
    have hsplit : p.data ++ '/' :: t = (p.data ++ ['/']) ++ t := by simp
    rw [hsplit]
    have hlen : (p.data ++ ['/']).length = p.data.length + 1 := by simp
    rw [← hlen, List.drop_left]
  rw [hrel]
  exact ht'

/-- The relativised name of a canonical entry keeps its last character, so
it never ends in a separator. -/
theorem relTo_getLast_ne (p q : String) (hq : validName q = true)
    (h : isUnder p q = true) :
    (relTo p q).data.getLast? ≠ some '/' := by
  by_cases hp : p = "."
  · rw [relTo, if_pos hp]
    exact validName_getLast q hq
  · have hd := isUnder_decomp p q hp h
    have hlast := validName_getLast q hq
    cases hrel : (relTo p q).data with
    | nil =>
      rw [hrel] at hd
      rw [hd] at hlast
      exact absurd (List.getLast?_append_of_ne_nil p.data (by simp)) hlast
    | cons a l =>
      rw [hrel] at hd
      rw [hd] at hlast
      rw [List.getLast?_append_cons] at hlast
      intro hh
      apply hlast
      rw [List.getLast?_cons_cons, ← hrel]
      rw [hrel]
      exact hh

/-- Directory entries get the trailing separator. -/
theorem dir_entry_getLast (p q : String) :
    (relTo p q ++ "/").data.getLast? = some '/' := by
  rw [String.data_append]
  exact List.getLast?_append_of_ne_nil _ (by simp)

/-- C10: on a path that does not exist (other than the always-existing
`"."` default), or that exists only as a regular file, `list_files`
returns the JSON-encoded empty array `"[]"` — `Path(...).glob("**/*")`
yields nothing rather than raising — and, the model being a total
function, nothing is raised. -/
theorem c10_list_files_missing_or_file_empty :
    ∀ (fs : FS) (p : String), FS.wf fs → p ≠ "." →
      (fs.pathExists p = false ∨ (fs.files.lookup p).isSome = true) →
      list_files fs [("path", p)] = "[]" := by
  intro fs p hwf hdot hcase
  obtain ⟨hnodup, hnodupd, hdisj, hvalid, hclosed⟩ := hwf
  have hfilter : fs.allNames.filter (fun q => isUnder p q) = [] := by
    rw [List.filter_eq_nil_iff]
    intro q hq hU
    have hdec : p.data ∈ ancestorsL q.data := by
      rw [isUnder, if_neg hdot] at hU
      obtain ⟨t, ht⟩ := (isPrefixOf_iff_append _ _).mp hU
      rw [String.data_append] at ht
      have ht' : q.data = p.data ++ '/' :: t := by simpa using ht
      rw [ht']
      exact mem_ancestorsL_of_append p.data t
    have hmem : p ∈ ancestors q := by
      rw [ancestors]
      exact List.mem_map.mpr ⟨p.data, hdec, rfl⟩
    have hpd : p ∈ fs.dirs := hclosed q hq p hmem
    cases hcase with
    | inl hne =>
      exact absurd hpd (not_mem_of_contains_false _ _ (pathExists_false_parts fs p hne).2)
    | inr hfile =>
      have hk : p ∈ fs.files.map Prod.fst := (lookup_isSome_iff_mem_keys p fs.files).mp hfile
      exact absurd hpd (hdisj p hk)
  have h0 : list_files fs [("path", p)] = json_dumps (globEntries fs p) := rfl
  rw [h0, globEntries, hfilter]
  rfl

theorem c10_witness :
    (FS.wf ⟨[("sub/f.txt", "x")], ["sub"]⟩
      ∧ ("nope" : String) ≠ "."
      ∧ ((FS.mk [("sub/f.txt", "x")] ["sub"]).pathExists "nope" = false
          ∨ ((FS.mk [("sub/f.txt", "x")] ["sub"]).files.lookup "nope").isSome = true))
    ∧ list_files ⟨[("sub/f.txt", "x")], ["sub"]⟩ [("path", "nope")] = "[]" := by
  refine ⟨⟨⟨by decide, by decide, by decide, by decide, by decide⟩, by decide,
    Or.inl (by decide)⟩, ?_⟩
  exact c10_list_files_missing_or_file_empty ⟨[("sub/f.txt", "x")], ["sub"]⟩ "nope"
    ⟨by decide, by decide, by decide, by decide, by decide⟩ (by decide) (Or.inl (by decide))

/-- C6: `list_files` returns the JSON encoding of exactly the entries
strictly under the given path (all entries for the default `"."`), in the
model's enumeration order, each relativised to the given path, with
directory entries — and only directory entries — carrying a trailing
separator; an absent `path` argument behaves as `"."`.  Sortedness is not
claimed: the encoding follows enumeration order. -/
theorem c6_list_files_enumeration :
    ∀ (fs : FS) (p : String), FS.wf fs → (p = "." ∨ validName p = true) →
      list_files fs [("path", p)]
          = json_dumps ((fs.allNames.filter (fun q => isUnder p q)).map
              (fun q => if fs.dirs.contains q then relTo p q ++ "/" else relTo p q))
      ∧ (∀ q, q ∈ fs.allNames.filter (fun q => isUnder p q)
            ↔ (q ∈ fs.allNames ∧ isUnder p q = true))
      ∧ (∀ q ∈ fs.allNames, isUnder p q = true →
          (p = "." → relTo p q = q)
          ∧ (p ≠ "." → q.data = p.data ++ '/' :: (relTo p q).data)
          ∧ (fs.dirs.contains q = true →
              ((if fs.dirs.contains q then relTo p q ++ "/" else relTo p q) : String).data.getLast?
                = some '/')
          ∧ (fs.dirs.contains q = false →
              ((if fs.dirs.contains q then relTo p q ++ "/" else relTo p q) : String).data.getLast?
                ≠ some '/'))
      ∧ list_files fs [] = list_files fs [("path", ".")] := by
  intro fs p hwf _hp
  obtain ⟨hnodup, hnodupd, hdisj, hvalid, hclosed⟩ := hwf
  refine ⟨rfl, ?_, ?_, rfl⟩
  · intro q
    exact List.mem_filter
  · intro q hq hU
    refine ⟨?_, ?_, ?_, ?_⟩
    · intro hp
      rw [relTo, if_pos hp]
    · intro hp
      exact isUnder_decomp p q hp hU
    · intro hcq
      rw [hcq]
      simp only [if_true]
      exact dir_entry_getLast p q
    · intro hcq
      rw [hcq]
      simp only [Bool.false_eq_true, if_false]
      exact relTo_getLast_ne p q (hvalid q hq) hU

theorem c6_witness :
    (FS.wf ⟨[("sub/f.txt", "x")], ["sub"]⟩ ∧ (("." : String) = "." ∨ validName "." = true))
    ∧ list_files ⟨[("sub/f.txt", "x")], ["sub"]⟩ [("path", ".")]
        = json_dumps (((FS.mk [("sub/f.txt", "x")] ["sub"]).allNames.filter
            (fun q => isUnder "." q)).map
            (fun q => if (FS.mk [("sub/f.txt", "x")] ["sub"]).dirs.contains q
              then relTo "." q ++ "/" else relTo "." q))
      ∧ (∀ q, q ∈ (FS.mk [("sub/f.txt", "x")] ["sub"]).allNames.filter
            (fun q => isUnder "." q)
          ↔ (q ∈ (FS.mk [("sub/f.txt", "x")] ["sub"]).allNames ∧ isUnder "." q = true))
      ∧ (∀ q ∈ (FS.mk [("sub/f.txt", "x")] ["sub"]).allNames, isUnder "." q = true →
          (("." : String) = "." → relTo "." q = q)
          ∧ (("." : String) ≠ "." → q.data = ".".data ++ '/' :: (relTo "." q).data)
          ∧ ((FS.mk [("sub/f.txt", "x")] ["sub"]).dirs.contains q = true →
              ((if (FS.mk [("sub/f.txt", "x")] ["sub"]).dirs.contains q
                then relTo "." q ++ "/" else relTo "." q) : String).data.getLast?
                = some '/')
          ∧ ((FS.mk [("sub/f.txt", "x")] ["sub"]).dirs.contains q = false →
              ((if (FS.mk [("sub/f.txt", "x")] ["sub"]).dirs.contains q
                then relTo "." q ++ "/" else relTo "." q) : String).data.getLast?
                ≠ some '/'))
      ∧ list_files ⟨[("sub/f.txt", "x")], ["sub"]⟩ []
          = list_files ⟨[("sub/f.txt", "x")], ["sub"]⟩ [("path", ".")] := by
  refine ⟨⟨⟨by decide, by decide, by decide, by decide, by decide⟩, Or.inl rfl⟩, ?_⟩
  exact c6_list_files_enumeration ⟨[("sub/f.txt", "x")], ["sub"]⟩ "."
    ⟨by decide, by decide, by decide, by decide, by decide⟩ (Or.inl rfl)
